import Mathlib

/-! # Verification of the proposal-generator pipeline

Shallow embedding of `src/proposal_app.py`: the text normalizer
`clean_proposal_text`, the request handler triggered by the Generate
Proposal button, and the document-assembly step.  Strings are modelled
as `List Char`; the regular-expression substitutions of the Python
source are modelled as executable recursive functions on those lists.
-/

namespace ProposalApp

/-- A character Python's `str.isspace` (hence `str.strip()`) treats as
whitespace: `\t \n \v \f \r`, space, the file/group/record/unit
separators `\x1c`-`\x1f`, next line `\x85`, and the Unicode space
separators together with the line and paragraph separators. -/
def pyIsSpace (c : Char) : Bool :=
  (9 ≤ c.toNat && c.toNat ≤ 13) || c.toNat = 32 ||
  (28 ≤ c.toNat && c.toNat ≤ 31) || c.toNat = 133 || c.toNat = 160 ||
  c.toNat = 0x1680 || (0x2000 ≤ c.toNat && c.toNat ≤ 0x200a) ||
  c.toNat = 0x2028 || c.toNat = 0x2029 || c.toNat = 0x202f ||
  c.toNat = 0x205f || c.toNat = 0x3000

/-- Python `text.strip()`: drop whitespace from the front, then from the
back (the back is handled by reversing, dropping from the front, and
reversing again). -/
def pyStrip (l : List Char) : List Char :=
  ((l.dropWhile pyIsSpace).reverse.dropWhile pyIsSpace).reverse

/-- Fuelled model of `re.sub(r"\*+", "", text)` (line 45 of
`proposal_app.py`): scanning left to right, each maximal run of one or
more `*` characters is replaced by the empty string.  The fuel bounds
the recursion and is in surplus whenever it is at least the length of
the list. -/
def subStarsF : Nat → List Char → List Char
  | _, [] => []
  | 0, l => l
  | fuel + 1, c :: rest =>
    if c = '*' then subStarsF fuel (rest.dropWhile fun d => d = '*')
    else c :: subStarsF fuel rest

/-- `re.sub(r"\*+", "", text)` with the fuel instantiated sufficiently. -/
def subStars (l : List Char) : List Char :=
  subStarsF l.length l

/-- The scan the regex engine performs after an opening `[` for the
pattern `\[.*?\]`: `.` does not match a newline and `.*?` is lazy, so
the match ends at the first `]` reached before any newline; finding a
newline (or the end of the input) first means no match starts at this
`[`.  Returns the remainder of the list after the closing `]` when the
match succeeds. -/
def scanClose : List Char → Option (List Char)
  | [] => none
  | c :: rest =>
    if c = ']' then some rest
    else if c = '\n' then none
    else scanClose rest

/-- Fuelled model of `re.sub(r"\[.*?\]", "", text)` (line 47 of
`proposal_app.py`): scanning left to right, every matched span from a
`[` to the first `]` on the same line is deleted, delimiters included;
a `[` with no such `]` is kept and the scan moves one character on. -/
def removeBracketsF : Nat → List Char → List Char
  | _, [] => []
  | 0, l => l
  | fuel + 1, c :: rest =>
    if c = '[' then
      match scanClose rest with
      | some rest' => removeBracketsF fuel rest'
      | none => c :: removeBracketsF fuel rest
    else c :: removeBracketsF fuel rest

/-- `re.sub(r"\[.*?\]", "", text)` with the fuel instantiated
sufficiently. -/
def removeBrackets (l : List Char) : List Char :=
  removeBracketsF l.length l

/-- `clean_proposal_text` (lines 43-48 of `proposal_app.py`): remove
markdown `**` and `*`, remove square-bracket placeholders like
`[Your Name]`, then strip surrounding whitespace. -/
def clean_proposal_text (l : List Char) : List Char :=
  pyStrip (removeBrackets (subStars l))

/-- The normalizer as the spec words it: step 1 removes every run of
one or more emphasis marker characters and changes nothing else —
equivalently it deletes each `*` character; step 2 removes every
bracketed placeholder span (shortest non-greedy match from `[` to the
next `]`) with its delimiters; step 3 trims surrounding whitespace. -/
def normalize_spec (l : List Char) : List Char :=
  pyStrip (removeBrackets (l.filter fun c => c != '*'))

/-- The form fields read by the Generate Proposal button handler
(lines 32-37 of `proposal_app.py`).  The text inputs are strings; the
budget comes from a numeric input widget with minimum 0. -/
structure Inputs where
  client_name : List Char
  service : List Char
  budget : Int
  contact_name : List Char
  contact_email : List Char
  contact_phone : List Char
deriving DecidableEq, Repr

/-- The validation condition of line 54:
`not client_name or not service or budget <= 0 or not contact_name`
(an empty Python string is falsy). -/
def invalidInputs (inp : Inputs) : Bool :=
  inp.client_name.isEmpty || inp.service.isEmpty ||
  decide (inp.budget ≤ 0) || inp.contact_name.isEmpty

/-- The f-string prompt of lines 60-67 of `proposal_app.py`. -/
def buildPrompt (inp : Inputs) : List Char :=
  "Create a professional business proposal from '".data ++
  inp.contact_name ++ "' to '".data ++ inp.client_name ++ "'. ".data ++
  "The proposal should offer '".data ++ inp.service ++
  "' services for a budget of $".data ++ (toString inp.budget).data ++
  ". ".data ++
  "Make it clear that this proposal is from the provider (us) to the client (them). ".data ++
  "Include sections: Cover Greeting, Overview, Service Highlights, Pricing, Why Choose Us, and Contact Info. ".data ++
  "Make it polite, structured, client-focused, and at least 1.5 pages long. ".data ++
  "Avoid placeholders like [Your Name] or [Contact Info].".data

/-- The content of the assembled PDF: the fixed margins of lines 84-86,
the centered title cell of line 98, the justified body of line 103, and
the left-aligned contact footer of lines 108-112. -/
structure Document where
  marginLeft : Nat
  marginRight : Nat
  marginTop : Nat
  title : List Char
  body : List Char
  footer : List Char
deriving DecidableEq, Repr

/-- Document assembly (lines 80-112 of `proposal_app.py`): margins
20/20/15, title literal `Business Proposal`, body the normalized
generated text, footer the f-string
`---\nPrepared by: {contact_name}\nEmail: {contact_email}\nPhone: {contact_phone}`. -/
def assembleDocument (raw : List Char) (inp : Inputs) : Document where
  marginLeft := 20
  marginRight := 20
  marginTop := 15
  title := "Business Proposal".data
  body := clean_proposal_text raw
  footer :=
    "---\nPrepared by: ".data ++ inp.contact_name ++
    "\nEmail: ".data ++ inp.contact_email ++
    "\nPhone: ".data ++ inp.contact_phone

/-- What the handler leaves on the screen at the end of a run. -/
inductive Outcome where
  /-- `st.warning` of line 55: required fields missing. -/
  | validationWarning : Outcome
  /-- `st.error` + `st.stop` of lines 91-92: font file absent. -/
  | fontMissingStop : Outcome
  /-- `st.error(f"Error: {e}")` of line 148: an exception was caught. -/
  | errorCaught : List Char → Outcome
  /-- Lines 114-130: the PDF was written, displayed and offered. -/
  | rendered : Document → Outcome
deriving DecidableEq, Repr

/-- Observable effects of one press of the Generate Proposal button. -/
structure HandlerResult where
  /-- Whether `client.chat.completions.create` (lines 70-73) ran. -/
  genCalled : Bool
  /-- Whether `pdf.output` (line 116) ran. -/
  pdfWritten : Bool
  /-- The prompt sent to the generation service, when one was built. -/
  promptSent : Option (List Char)
  outcome : Outcome
deriving DecidableEq, Repr

/-- The Generate Proposal button handler (lines 53-148 of
`proposal_app.py`).  The two external effects are parameters: `gen` is
the outcome of the generation call (`Except.error e` models the call
raising an exception with message `e`), and `fontPresent` is whether
`fonts/DejaVuSans.ttf` exists.  The source order is kept: validation
first, then the generation call, then the font-existence check, then
rendering; any exception is caught by the trailing handler. -/
def handle (inp : Inputs) (fontPresent : Bool)
    (gen : Except (List Char) (List Char)) : HandlerResult :=
  if invalidInputs inp then
    { genCalled := false, pdfWritten := false, promptSent := none
      outcome := .validationWarning }
  else
    match gen with
    | .error e =>
      { genCalled := true, pdfWritten := false
        promptSent := some (buildPrompt inp), outcome := .errorCaught e }
    | .ok raw =>
      if fontPresent then
        { genCalled := true, pdfWritten := true
          promptSent := some (buildPrompt inp)
          outcome := .rendered (assembleDocument raw inp) }
      else
        { genCalled := true, pdfWritten := false
          promptSent := some (buildPrompt inp)
          outcome := .fontMissingStop }

/-! ## Basic lemmas about the fuelled scans

The fuel argument is irrelevant as soon as it is at least the length of
the list, which yields clean one-step unfolding lemmas for `subStars`
and `removeBrackets`. -/

theorem dropWhile_len_le (p : Char → Bool) (l : List Char) :
    (l.dropWhile p).length ≤ l.length :=
  (List.dropWhile_sublist p).length_le

theorem scanClose_length {l l' : List Char} (h : scanClose l = some l') :
    l'.length < l.length := by
  induction l with
  | nil => simp [scanClose] at h
  | cons c rest ih =>
    by_cases hc : c = ']'
    · simp [scanClose, hc] at h
      simp [← h]
    · by_cases hn : c = '\n'
      · simp [scanClose, hc, hn] at h
      · simp [scanClose, hc, hn] at h
        exact Nat.lt_trans (ih h) (Nat.lt_succ_self _)

theorem subStarsF_congr :
    ∀ (f g : Nat) (l : List Char), l.length ≤ f → l.length ≤ g →
      subStarsF f l = subStarsF g l := by
  intro f
  induction f with
  | zero =>
    intro g l hf _
    have : l = [] := List.length_eq_zero.mp (Nat.le_zero.mp hf)
    subst this
    simp [subStarsF]
  | succ f ih =>
    intro g l hf hg
    match l with
    | [] => simp [subStarsF]
    | c :: rest =>
      match g with
      | 0 => exact absurd hg (by simp)
      | g + 1 =>
        by_cases hc : c = '*'
        · simp only [subStarsF, hc, if_pos rfl]
          exact ih g _
            (Nat.le_trans (dropWhile_len_le _ _) (Nat.le_of_succ_le_succ hf))
            (Nat.le_trans (dropWhile_len_le _ _) (Nat.le_of_succ_le_succ hg))
        · simp only [subStarsF, hc, if_neg hc]
          exact congrArg (c :: ·)
            (ih g rest (Nat.le_of_succ_le_succ hf) (Nat.le_of_succ_le_succ hg))

theorem removeBracketsF_congr :
    ∀ (f g : Nat) (l : List Char), l.length ≤ f → l.length ≤ g →
      removeBracketsF f l = removeBracketsF g l := by
  intro f
  induction f with
  | zero =>
    intro g l hf _
    have : l = [] := List.length_eq_zero.mp (Nat.le_zero.mp hf)
    subst this
    simp [removeBracketsF]
  | succ f ih =>
    intro g l hf hg
    match l with
    | [] => simp [removeBracketsF]
    | c :: rest =>
      match g with
      | 0 => exact absurd hg (by simp)
      | g + 1 =>
        by_cases hc : c = '['
        · cases hs : scanClose rest with
          | some rest' =>
            simp only [removeBracketsF, hc, if_pos rfl, hs]
            exact ih g rest'
              (Nat.le_trans (Nat.le_of_lt (scanClose_length hs))
                (Nat.le_of_succ_le_succ hf))
              (Nat.le_trans (Nat.le_of_lt (scanClose_length hs))
                (Nat.le_of_succ_le_succ hg))
          | none =>
            simp only [removeBracketsF, hc, if_pos rfl, hs, if_true]
            exact congrArg ('[' :: ·)
              (ih g rest (Nat.le_of_succ_le_succ hf) (Nat.le_of_succ_le_succ hg))
        · simp only [removeBracketsF, if_neg hc]
          exact congrArg (c :: ·)
            (ih g rest (Nat.le_of_succ_le_succ hf) (Nat.le_of_succ_le_succ hg))

theorem subStars_nil : subStars [] = [] := rfl

theorem subStars_cons_star (rest : List Char) :
    subStars ('*' :: rest) = subStars (rest.dropWhile fun d => d = '*') := by
  show subStarsF (rest.length + 1) ('*' :: rest) = _
  simp only [subStarsF, if_pos rfl]
  exact subStarsF_congr _ _ _ (dropWhile_len_le _ _) (Nat.le_refl _)

theorem subStars_cons_ne {c : Char} (hc : c ≠ '*') (rest : List Char) :
    subStars (c :: rest) = c :: subStars rest := by
  show subStarsF (rest.length + 1) (c :: rest) = _
  simp only [subStarsF, if_neg hc]
  rfl

theorem removeBrackets_nil : removeBrackets [] = [] := rfl

theorem removeBrackets_open_some {rest rest' : List Char}
    (hs : scanClose rest = some rest') :
    removeBrackets ('[' :: rest) = removeBrackets rest' := by
  show removeBracketsF (rest.length + 1) ('[' :: rest) = _
  simp only [removeBracketsF, if_pos rfl, hs]
  exact removeBracketsF_congr _ _ _
    (Nat.le_of_lt (scanClose_length hs)) (Nat.le_refl _)

theorem removeBrackets_open_none {rest : List Char}
    (hs : scanClose rest = none) :
    removeBrackets ('[' :: rest) = '[' :: removeBrackets rest := by
  show removeBracketsF (rest.length + 1) ('[' :: rest) = _
  simp only [removeBracketsF, if_pos rfl, hs, if_true]
  rfl

theorem removeBrackets_cons_ne {c : Char} (hc : c ≠ '[') (rest : List Char) :
    removeBrackets (c :: rest) = c :: removeBrackets rest := by
  show removeBracketsF (rest.length + 1) (c :: rest) = _
  simp only [removeBracketsF, if_neg hc]
  rfl

theorem filter_dropWhile_star (rest : List Char) :
    (rest.dropWhile fun d => d = '*').filter (fun c => c != '*') =
      rest.filter fun c => c != '*' := by
  induction rest with
  | nil => simp
  | cons d rest' ihr =>
    by_cases hd : d = '*'
    · subst hd
      simp [List.dropWhile_cons]
      exact ihr
    · simp [List.dropWhile_cons, hd]

theorem subStars_eq_filter (l : List Char) :
    subStars l = l.filter fun c => c != '*' := by
  suffices h : ∀ (n : Nat) (l : List Char), l.length ≤ n →
      subStars l = l.filter fun c => c != '*' by
    exact h l.length l (Nat.le_refl _)
  intro n
  induction n with
  | zero =>
    intro l hl
    have : l = [] := List.length_eq_zero.mp (Nat.le_zero.mp hl)
    subst this
    simp [subStars_nil]
  | succ n ih =>
    intro l hl
    match l with
    | [] => simp [subStars_nil]
    | c :: rest =>
      by_cases hc : c = '*'
      · subst hc
        rw [subStars_cons_star,
          ih _ (Nat.le_trans (dropWhile_len_le _ _) (Nat.le_of_succ_le_succ hl)),
          filter_dropWhile_star]
        simp
      · rw [subStars_cons_ne hc, ih rest (Nat.le_of_succ_le_succ hl)]
        simp [hc]

/-- The boolean guard of line 54 matches the spec's description of the
invalid requests. -/
theorem invalidInputs_iff (inp : Inputs) :
    invalidInputs inp = true ↔
      inp.client_name = [] ∨ inp.service = [] ∨ inp.contact_name = [] ∨
        inp.budget ≤ 0 := by
  simp only [invalidInputs, Bool.or_eq_true, List.isEmpty_iff,
    decide_eq_true_eq]
  tauto

/-! ## Membership and idempotence lemmas for the normalizer

Each pass of `clean_proposal_text` only deletes characters, the first
pass leaves no `*`, no one-line bracketed span, and no surrounding
whitespace, and a second pass therefore changes nothing. -/

theorem scanClose_mem {l l' : List Char} {c : Char}
    (h : scanClose l = some l') (hm : c ∈ l') : c ∈ l := by
  induction l with
  | nil => simp [scanClose] at h
  | cons d rest ih =>
    by_cases hd : d = ']'
    · simp [scanClose, hd] at h
      exact List.mem_cons_of_mem _ (h ▸ hm)
    · by_cases hn : d = '\n'
      · simp [scanClose, hd, hn] at h
      · simp [scanClose, hd, hn] at h
        exact List.mem_cons_of_mem _ (ih h)

theorem mem_of_mem_removeBrackets {c : Char} :
    ∀ {l : List Char}, c ∈ removeBrackets l → c ∈ l := by
  suffices h : ∀ (n : Nat) (l : List Char), l.length ≤ n →
      c ∈ removeBrackets l → c ∈ l by
    intro l
    exact h l.length l (Nat.le_refl _)
  intro n
  induction n with
  | zero =>
    intro l hl
    have : l = [] := List.length_eq_zero.mp (Nat.le_zero.mp hl)
    subst this
    simp [removeBrackets_nil]
  | succ n ih =>
    intro l hl hm
    match l with
    | [] => simp [removeBrackets_nil] at hm
    | d :: rest =>
      by_cases hd : d = '['
      · subst hd
        cases hs : scanClose rest with
        | some rest' =>
          rw [removeBrackets_open_some hs] at hm
          have hlen : rest'.length ≤ n :=
            Nat.le_trans (Nat.le_of_lt (scanClose_length hs))
              (Nat.le_of_succ_le_succ hl)
          exact List.mem_cons_of_mem _ (scanClose_mem hs (ih rest' hlen hm))
        | none =>
          rw [removeBrackets_open_none hs] at hm
          rcases List.mem_cons.mp hm with hm | hm
          · exact hm ▸ List.mem_cons_self _ _
          · exact List.mem_cons_of_mem _
              (ih rest (Nat.le_of_succ_le_succ hl) hm)
      · rw [removeBrackets_cons_ne hd] at hm
        rcases List.mem_cons.mp hm with hm | hm
        · exact hm ▸ List.mem_cons_self _ _
        · exact List.mem_cons_of_mem _
            (ih rest (Nat.le_of_succ_le_succ hl) hm)

theorem mem_of_mem_pyStrip {c : Char} {l : List Char}
    (h : c ∈ pyStrip l) : c ∈ l := by
  have h1 := List.mem_reverse.mp h
  have h2 := (List.dropWhile_sublist pyIsSpace).subset h1
  have h3 := List.mem_reverse.mp h2
  exact (List.dropWhile_sublist pyIsSpace).subset h3

theorem noStar_clean (l : List Char) : '*' ∉ clean_proposal_text l := by
  intro hmem
  have h1 : '*' ∈ removeBrackets (subStars l) := mem_of_mem_pyStrip hmem
  have h2 : '*' ∈ subStars l := mem_of_mem_removeBrackets h1
  rw [subStars_eq_filter] at h2
  simp [List.mem_filter] at h2

theorem subStars_eq_self_of_noStar {l : List Char} (h : '*' ∉ l) :
    subStars l = l := by
  rw [subStars_eq_filter]
  refine List.filter_eq_self.mpr fun a ha => ?_
  simp only [bne_iff_ne, ne_eq]
  intro he
  exact h (he ▸ ha)

/-- Whether the bracket regex matches anywhere in the text: some
position holds a `[` with a `]` later on the same line. -/
def hasMatch : List Char → Bool
  | [] => false
  | c :: rest =>
    (if c = '[' then (scanClose rest).isSome else false) || hasMatch rest

theorem removeBrackets_eq_self_of_noMatch :
    ∀ {l : List Char}, hasMatch l = false → removeBrackets l = l := by
  suffices h : ∀ (n : Nat) (l : List Char), l.length ≤ n →
      hasMatch l = false → removeBrackets l = l by
    intro l
    exact h l.length l (Nat.le_refl _)
  intro n
  induction n with
  | zero =>
    intro l hl _
    have : l = [] := List.length_eq_zero.mp (Nat.le_zero.mp hl)
    subst this
    exact removeBrackets_nil
  | succ n ih =>
    intro l hl hm
    match l with
    | [] => exact removeBrackets_nil
    | d :: rest =>
      rw [hasMatch, Bool.or_eq_false_iff] at hm
      by_cases hd : d = '['
      · subst hd
        have hnone : scanClose rest = none := by
          have := hm.1
          rw [if_pos rfl] at this
          exact Option.not_isSome_iff_eq_none.mp (by simp [this])
        rw [removeBrackets_open_none hnone,
          ih rest (Nat.le_of_succ_le_succ hl) hm.2]
      · rw [removeBrackets_cons_ne hd,
          ih rest (Nat.le_of_succ_le_succ hl) hm.2]

theorem scanClose_removeBrackets_none :
    ∀ {l : List Char}, scanClose l = none →
      scanClose (removeBrackets l) = none := by
  suffices h : ∀ (n : Nat) (l : List Char), l.length ≤ n →
      scanClose l = none → scanClose (removeBrackets l) = none by
    intro l
    exact h l.length l (Nat.le_refl _)
  intro n
  induction n with
  | zero =>
    intro l hl _
    have : l = [] := List.length_eq_zero.mp (Nat.le_zero.mp hl)
    subst this
    simp [removeBrackets_nil, scanClose]
  | succ n ih =>
    intro l hl hm
    match l with
    | [] => simp [removeBrackets_nil, scanClose]
    | d :: rest =>
      by_cases hd : d = ']'
      · simp [scanClose, hd] at hm
      · by_cases hn : d = '\n'
        · subst hn
          rw [removeBrackets_cons_ne (by decide)]
          simp [scanClose]
        · have hrest : scanClose rest = none := by
            simpa [scanClose, hd, hn] using hm
          by_cases hbr : d = '['
          · subst hbr
            rw [removeBrackets_open_none hrest, scanClose, if_neg hd,
              if_neg hn]
            exact ih rest (Nat.le_of_succ_le_succ hl) hrest
          · rw [removeBrackets_cons_ne hbr, scanClose, if_neg hd,
              if_neg hn]
            exact ih rest (Nat.le_of_succ_le_succ hl) hrest

theorem hasMatch_removeBrackets :
    ∀ {l : List Char}, hasMatch (removeBrackets l) = false := by
  suffices h : ∀ (n : Nat) (l : List Char), l.length ≤ n →
      hasMatch (removeBrackets l) = false by
    intro l
    exact h l.length l (Nat.le_refl _)
  intro n
  induction n with
  | zero =>
    intro l hl
    have : l = [] := List.length_eq_zero.mp (Nat.le_zero.mp hl)
    subst this
    simp [removeBrackets_nil, hasMatch]
  | succ n ih =>
    intro l hl
    match l with
    | [] => simp [removeBrackets_nil, hasMatch]
    | d :: rest =>
      by_cases hd : d = '['
      · subst hd
        cases hs : scanClose rest with
        | some rest' =>
          rw [removeBrackets_open_some hs]
          exact ih rest'
            (Nat.le_trans (Nat.le_of_lt (scanClose_length hs))
              (Nat.le_of_succ_le_succ hl))
        | none =>
          rw [removeBrackets_open_none hs, hasMatch, if_pos rfl,
            scanClose_removeBrackets_none hs]
          simp [ih rest (Nat.le_of_succ_le_succ hl)]
      · rw [removeBrackets_cons_ne hd, hasMatch, if_neg hd]
        simp [ih rest (Nat.le_of_succ_le_succ hl)]

theorem hasMatch_append_right {a u : List Char}
    (h : hasMatch (a ++ u) = false) : hasMatch u = false := by
  induction a with
  | nil => exact h
  | cons c a' ih =>
    rw [List.cons_append, hasMatch, Bool.or_eq_false_iff] at h
    exact ih h.2

theorem scanClose_extend {u b r : List Char}
    (h : scanClose u = some r) : (scanClose (u ++ b)).isSome = true := by
  induction u with
  | nil => simp [scanClose] at h
  | cons c u' ih =>
    by_cases hc : c = ']'
    · simp [scanClose, hc]
    · by_cases hn : c = '\n'
      · simp [scanClose, hc, hn] at h
      · rw [scanClose, if_neg hc, if_neg hn] at h
        rw [List.cons_append, scanClose, if_neg hc, if_neg hn]
        exact ih h

theorem hasMatch_append_left {u b : List Char}
    (h : hasMatch (u ++ b) = false) : hasMatch u = false := by
  induction u with
  | nil => rfl
  | cons c u' ih =>
    rw [List.cons_append, hasMatch, Bool.or_eq_false_iff] at h
    rw [hasMatch, Bool.or_eq_false_iff]
    refine ⟨?_, ih h.2⟩
    by_cases hc : c = '['
    · rw [if_pos hc]
      cases hs : scanClose u' with
      | some r =>
        have := scanClose_extend (b := b) hs
        rw [if_pos hc, this] at h
        exact absurd h.1 (by simp)
      | none => simp
    · rw [if_neg hc]

theorem pyStrip_decomp (l : List Char) :
    l = l.takeWhile pyIsSpace ++ pyStrip l ++
      ((l.dropWhile pyIsSpace).reverse.takeWhile pyIsSpace).reverse := by
  conv_lhs => rw [← List.takeWhile_append_dropWhile (p := pyIsSpace)
    (l := l)]
  rw [List.append_assoc]
  congr 1
  conv_lhs => rw [← List.reverse_reverse (l.dropWhile pyIsSpace),
    ← List.takeWhile_append_dropWhile (p := pyIsSpace)
      (l := (l.dropWhile pyIsSpace).reverse)]
  rw [List.reverse_append]
  rfl

theorem hasMatch_pyStrip {l : List Char} (h : hasMatch l = false) :
    hasMatch (pyStrip l) = false := by
  have hd := pyStrip_decomp l
  rw [hd, List.append_assoc] at h
  exact hasMatch_append_left (hasMatch_append_right h)

theorem dropWhile_head_false {p : Char → Bool} {l t : List Char}
    {c : Char} (h : l.dropWhile p = c :: t) : p c = false := by
  induction l with
  | nil => simp [List.dropWhile] at h
  | cons d l' ih =>
    by_cases hd : p d
    · rw [List.dropWhile_cons_of_pos hd] at h
      exact ih h
    · rw [List.dropWhile_cons_of_neg hd] at h
      cases h
      exact Bool.eq_false_iff.mpr hd

theorem dropWhile_cons_self {p : Char → Bool} {c : Char}
    (h : p c = false) (t : List Char) : (c :: t).dropWhile p = c :: t :=
  List.dropWhile_cons_of_neg (by simp [h])

theorem dropWhile_append_singleton {p : Char → Bool} {c : Char}
    (h : p c = false) (u : List Char) :
    (u ++ [c]).dropWhile p = u.dropWhile p ++ [c] := by
  induction u with
  | nil => simp [dropWhile_cons_self h]
  | cons d u' ih =>
    by_cases hd : p d
    · rw [List.cons_append, List.dropWhile_cons_of_pos hd,
        List.dropWhile_cons_of_pos hd]
      exact ih
    · rw [List.cons_append, List.dropWhile_cons_of_neg hd,
        List.dropWhile_cons_of_neg hd, List.cons_append]

theorem dropWhile_idem (p : Char → Bool) (l : List Char) :
    (l.dropWhile p).dropWhile p = l.dropWhile p := by
  cases h : l.dropWhile p with
  | nil => simp
  | cons c t => exact dropWhile_cons_self (dropWhile_head_false h) t

theorem pyStrip_idem (l : List Char) : pyStrip (pyStrip l) = pyStrip l := by
  cases ht : l.dropWhile pyIsSpace with
  | nil => simp [pyStrip, ht]
  | cons c t =>
    have hc : pyIsSpace c = false := dropWhile_head_false ht
    have h1 : pyStrip l = c :: (t.reverse.dropWhile pyIsSpace).reverse := by
      rw [pyStrip, ht, show (c :: t).reverse = t.reverse ++ [c] from by
        simp, dropWhile_append_singleton hc]
      simp
    rw [h1, pyStrip, dropWhile_cons_self hc,
      show (c :: (t.reverse.dropWhile pyIsSpace).reverse).reverse =
        t.reverse.dropWhile pyIsSpace ++ [c] from by simp,
      dropWhile_append_singleton hc, dropWhile_idem]
    simp [h1]

/-! ## Spans that survive the normalizer

The bracket regex never matches across a newline, so a bracketed span
whose interior holds a newline — and none of the characters the other
steps act on — survives `clean_proposal_text` verbatim. -/

/-- `u` occurs contiguously (verbatim) inside `v`. -/
def containsSpan (u v : List Char) : Prop :=
  ∃ a b, v = a ++ u ++ b

theorem subStars_append (a b : List Char) :
    subStars (a ++ b) = subStars a ++ subStars b := by
  rw [subStars_eq_filter, subStars_eq_filter, subStars_eq_filter,
    List.filter_append]

theorem scanClose_m_none {m : List Char} (hnl : '\n' ∈ m)
    (hcl : ']' ∉ m) (l : List Char) : scanClose (m ++ l) = none := by
  induction m with
  | nil => simp at hnl
  | cons d m' ih =>
    have hd : d ≠ ']' := fun h => hcl (h ▸ List.mem_cons_self _ _)
    by_cases hn : d = '\n'
    · rw [List.cons_append, scanClose, if_neg hd, if_pos hn]
    · have hnl' : '\n' ∈ m' := by
        rcases List.mem_cons.mp hnl with h | h
        · exact absurd h.symm hn
        · exact h
      have hcl' : ']' ∉ m' := fun h => hcl (List.mem_cons_of_mem _ h)
      rw [List.cons_append, scanClose, if_neg hd, if_neg hn]
      exact ih hnl' hcl'

theorem removeBrackets_append_noOpen {m : List Char} (hop : '[' ∉ m)
    (l : List Char) : removeBrackets (m ++ l) = m ++ removeBrackets l := by
  induction m with
  | nil => simp
  | cons d m' ih =>
    have hd : d ≠ '[' := fun h => hop (h ▸ List.mem_cons_self _ _)
    have hop' : '[' ∉ m' := fun h => hop (List.mem_cons_of_mem _ h)
    rw [List.cons_append, removeBrackets_cons_ne hd, ih hop',
      List.cons_append]

theorem scanClose_append_cases {r0 : List Char}
    (h : scanClose r0 = none) (t : List Char) :
    scanClose (t ++ r0) = none ∨
      ∃ t2, t2.length ≤ t.length ∧ scanClose (t ++ r0) = some (t2 ++ r0) := by
  induction t with
  | nil => exact Or.inl h
  | cons c t' ih =>
    by_cases hc : c = ']'
    · refine Or.inr ⟨t', Nat.le_succ _, ?_⟩
      rw [List.cons_append, scanClose, if_pos hc]
    · by_cases hn : c = '\n'
      · exact Or.inl (by rw [List.cons_append, scanClose, if_neg hc,
          if_pos hn])
      · rw [List.cons_append, scanClose, if_neg hc, if_neg hn]
        rcases ih with h1 | ⟨t2, hlen, h2⟩
        · exact Or.inl h1
        · exact Or.inr ⟨t2, Nat.le_trans hlen (Nat.le_succ _), h2⟩

theorem removeBrackets_span_base {m : List Char} (hnl : '\n' ∈ m)
    (hcl : ']' ∉ m) (hop : '[' ∉ m) (l₂ : List Char) :
    removeBrackets (('[' :: (m ++ [']'])) ++ l₂) =
      ('[' :: (m ++ [']'])) ++ removeBrackets l₂ := by
  have hshape : ('[' :: (m ++ [']'])) ++ l₂ = '[' :: (m ++ (']' :: l₂)) := by
    simp
  rw [hshape,
    removeBrackets_open_none (scanClose_m_none hnl hcl (']' :: l₂)),
    removeBrackets_append_noOpen hop, removeBrackets_cons_ne (by decide)]
  simp

theorem removeBrackets_preserves_span {m : List Char} (hnl : '\n' ∈ m)
    (hcl : ']' ∉ m) (hop : '[' ∉ m) :
    ∀ (n : Nat) (l₁ : List Char), l₁.length ≤ n → ∀ (l₂ : List Char),
      containsSpan ('[' :: (m ++ [']']))
        (removeBrackets (l₁ ++ (('[' :: (m ++ [']'])) ++ l₂))) := by
  have hr0 : ∀ l₂ : List Char,
      scanClose (('[' :: (m ++ [']'])) ++ l₂) = none := by
    intro l₂
    rw [List.cons_append, scanClose, if_neg (by decide), if_neg (by decide),
      List.append_assoc]
    exact scanClose_m_none hnl hcl _
  intro n
  induction n with
  | zero =>
    intro l₁ hl l₂
    have : l₁ = [] := List.length_eq_zero.mp (Nat.le_zero.mp hl)
    subst this
    rw [List.nil_append, removeBrackets_span_base hnl hcl hop]
    exact ⟨[], removeBrackets l₂, by simp⟩
  | succ n ih =>
    intro l₁ hl l₂
    match l₁ with
    | [] =>
      rw [List.nil_append, removeBrackets_span_base hnl hcl hop]
      exact ⟨[], removeBrackets l₂, by simp⟩
    | c :: t =>
      rw [List.cons_append]
      by_cases hc : c = '['
      · subst hc
        rcases scanClose_append_cases (hr0 l₂) t with hnone |
          ⟨t2, hlen, hsome⟩
        · rw [removeBrackets_open_none hnone]
          obtain ⟨a, b, hab⟩ := ih t (Nat.le_of_succ_le_succ hl) l₂
          exact ⟨'[' :: a, b, by rw [hab]; simp⟩
        · rw [removeBrackets_open_some hsome]
          exact ih t2 (Nat.le_trans hlen (Nat.le_of_succ_le_succ hl)) l₂
      · rw [removeBrackets_cons_ne hc]
        obtain ⟨a, b, hab⟩ := ih t (Nat.le_of_succ_le_succ hl) l₂
        exact ⟨c :: a, b, by rw [hab]; simp⟩

theorem dropWhile_preserves_span (p : Char → Bool) {x : Char}
    {k : List Char} (hx : p x = false) :
    ∀ (a b : List Char),
      containsSpan (x :: k) ((a ++ ((x :: k) ++ b)).dropWhile p) := by
  intro a
  induction a with
  | nil =>
    intro b
    rw [List.nil_append, List.cons_append, dropWhile_cons_self hx]
    exact ⟨[], b, by simp⟩
  | cons c a' ih =>
    intro b
    by_cases hc : p c = true
    · rw [List.cons_append, List.dropWhile_cons_of_pos hc]
      exact ih b
    · rw [List.cons_append, List.dropWhile_cons_of_neg hc]
      exact ⟨c :: a', b, by simp⟩

theorem containsSpan_dropWhile (p : Char → Bool) {x : Char}
    {k z : List Char} (hx : p x = false)
    (h : containsSpan (x :: k) z) :
    containsSpan (x :: k) (z.dropWhile p) := by
  obtain ⟨a, b, rfl⟩ := h
  rw [List.append_assoc]
  exact dropWhile_preserves_span p hx a b

theorem containsSpan_reverse {u v : List Char} (h : containsSpan u v) :
    containsSpan u.reverse v.reverse := by
  obtain ⟨a, b, rfl⟩ := h
  exact ⟨b.reverse, a.reverse, by simp⟩

theorem pyStrip_preserves_span {x y : Char} {k z : List Char}
    (hx : pyIsSpace x = false) (hy : pyIsSpace y = false)
    (h : containsSpan (x :: (k ++ [y])) z) :
    containsSpan (x :: (k ++ [y])) (pyStrip z) := by
  have h1 : containsSpan (x :: (k ++ [y])) (z.dropWhile pyIsSpace) :=
    containsSpan_dropWhile pyIsSpace hx h
  have h2 : containsSpan (y :: (k.reverse ++ [x]))
      ((z.dropWhile pyIsSpace).reverse) := by
    have := containsSpan_reverse h1
    rw [show (x :: (k ++ [y])).reverse = y :: (k.reverse ++ [x]) from by
      simp] at this
    exact this
  have h3 : containsSpan (y :: (k.reverse ++ [x]))
      ((z.dropWhile pyIsSpace).reverse.dropWhile pyIsSpace) :=
    containsSpan_dropWhile pyIsSpace hy h2
  have h4 := containsSpan_reverse h3
  rw [show (y :: (k.reverse ++ [x])).reverse = x :: (k ++ [y]) from by
    simp] at h4
  exact h4

/-! ## Claim theorems -/

/-- C1: for every input string, `clean_proposal_text` applies exactly
three steps in order — remove every run of one or more consecutive
emphasis marker characters, remove every bracketed placeholder span
(shortest non-greedy match from `[` to the next `]`) with its
delimiters, then trim surrounding whitespace — and makes no other
change: it coincides with the three-step normalizer `normalize_spec`
written from the spec's wording. -/
theorem clean_proposal_text_eq_normalize_spec (l : List Char) :
    clean_proposal_text l = normalize_spec l := by
  unfold clean_proposal_text normalize_spec
  rw [subStars_eq_filter]

/-- C2: `clean_proposal_text` is idempotent — normalizing an already
normalized text changes nothing: its output contains no `*`, contains
no bracketed span that the placeholder step could match, and carries no
surrounding whitespace, so every step of a second pass is the
identity. -/
theorem clean_proposal_text_idempotent (l : List Char) :
    clean_proposal_text (clean_proposal_text l) = clean_proposal_text l := by
  have h1 : subStars (clean_proposal_text l) = clean_proposal_text l :=
    subStars_eq_self_of_noStar (noStar_clean l)
  have h2 : hasMatch (clean_proposal_text l) = false :=
    hasMatch_pyStrip hasMatch_removeBrackets
  have h3 : removeBrackets (clean_proposal_text l) = clean_proposal_text l :=
    removeBrackets_eq_self_of_noMatch h2
  show pyStrip (removeBrackets (subStars (clean_proposal_text l))) =
    clean_proposal_text l
  rw [h1, h3]
  exact pyStrip_idem (removeBrackets (subStars l))

/-- C7: `clean_proposal_text` maps
`**Hello** [Name], welcome!` to `Hello , welcome!` and maps the empty
string to the empty string. -/
theorem clean_proposal_text_concrete_examples :
    clean_proposal_text "**Hello** [Name], welcome!".data =
        "Hello , welcome!".data ∧
      clean_proposal_text "".data = "".data := by
  decide

/-- C4: when client name, service, or sender name is empty or the
budget is at most 0, the handler shows the validation warning and the
generation service is not called; otherwise the handler builds the
prompt and calls generation. -/
theorem handler_validation_gate (inp : Inputs) (fontPresent : Bool)
    (gen : Except (List Char) (List Char)) :
    ((inp.client_name = [] ∨ inp.service = [] ∨ inp.contact_name = [] ∨
        inp.budget ≤ 0) →
      handle inp fontPresent gen =
        { genCalled := false, pdfWritten := false, promptSent := none
          outcome := .validationWarning }) ∧
    ((inp.client_name ≠ [] ∧ inp.service ≠ [] ∧ inp.contact_name ≠ [] ∧
        0 < inp.budget) →
      (handle inp fontPresent gen).genCalled = true ∧
      (handle inp fontPresent gen).promptSent = some (buildPrompt inp)) := by
  constructor
  · intro h
    have hb : invalidInputs inp = true := (invalidInputs_iff inp).mpr h
    simp [handle, hb]
  · intro h
    have hb : invalidInputs inp = false := by
      rcases h with ⟨h1, h2, h3, h4⟩
      rcases hbool : invalidInputs inp with _ | _
      · rfl
      · rcases (invalidInputs_iff inp).mp hbool with hh | hh | hh | hh
        · exact absurd hh h1
        · exact absurd hh h2
        · exact absurd hh h3
        · omega
    cases gen with
    | error e => simp [handle, hb]
    | ok raw => cases fontPresent <;> simp [handle, hb]

/-- C4 witness: a request with an empty client name is rejected without
a generation call, and a fully filled request triggers the call. -/
theorem handler_validation_gate_witness :
    handle ⟨[], "SEO".data, 500, "Ana".data, [], []⟩ true (.ok "t".data) =
      { genCalled := false, pdfWritten := false, promptSent := none
        outcome := .validationWarning } ∧
    (handle ⟨"Acme".data, "SEO".data, 500, "Ana".data, "a@b.c".data,
        "555".data⟩ true (.ok "t".data)).genCalled = true := by
  refine ⟨?_, ?_⟩
  · exact (handler_validation_gate _ _ _).1 (Or.inl rfl)
  · exact ((handler_validation_gate _ _ _).2 (by refine ⟨?_, ?_, ?_, ?_⟩ <;> decide)).1

/-- C8: when the generation call raises, the handler catches the error
into a single user-visible message, does not crash, and never reaches
the PDF output step, so no document artifact is produced. -/
theorem handler_generation_failure (inp : Inputs) (fontPresent : Bool)
    (e : List Char)
    (h1 : inp.client_name ≠ []) (h2 : inp.service ≠ [])
    (h3 : inp.contact_name ≠ []) (h4 : 0 < inp.budget) :
    handle inp fontPresent (.error e) =
      { genCalled := true, pdfWritten := false
        promptSent := some (buildPrompt inp), outcome := .errorCaught e } := by
  have hb : invalidInputs inp = false := by
    rcases hbool : invalidInputs inp with _ | _
    · rfl
    · rcases (invalidInputs_iff inp).mp hbool with hh | hh | hh | hh
      · exact absurd hh h1
      · exact absurd hh h2
      · exact absurd hh h3
      · omega
  simp [handle, hb]

/-- C8 witness: a concrete failing generation call is converted into a
caught error with no PDF written. -/
theorem handler_generation_failure_witness :
    handle ⟨"Acme".data, "SEO".data, 500, "Ana".data, "a@b.c".data,
        "555".data⟩ true (.error "quota".data) =
      { genCalled := true, pdfWritten := false
        promptSent := some (buildPrompt ⟨"Acme".data, "SEO".data, 500,
          "Ana".data, "a@b.c".data, "555".data⟩)
        outcome := .errorCaught "quota".data } := by
  exact handler_generation_failure _ _ _ (by decide) (by decide) (by decide)
    (by decide)

/-- C5: with a successful generation response and the font present, the
handler renders a document whose title region is the fixed literal
`Business Proposal` (in particular non-empty content), whose footer is
the separator line followed by the exact sender name, email, and phone
each on its own line, and whose margins are left 20, right 20, top 15. -/
theorem handler_success_document (inp : Inputs) (raw : List Char)
    (h1 : inp.client_name ≠ []) (h2 : inp.service ≠ [])
    (h3 : inp.contact_name ≠ []) (h4 : 0 < inp.budget) :
    handle inp true (.ok raw) =
      { genCalled := true, pdfWritten := true
        promptSent := some (buildPrompt inp)
        outcome := .rendered (assembleDocument raw inp) } ∧
    (assembleDocument raw inp).title = "Business Proposal".data ∧
    (assembleDocument raw inp).title ≠ [] ∧
    (assembleDocument raw inp).footer =
      "---\n".data ++ "Prepared by: ".data ++ inp.contact_name ++
        "\n".data ++ "Email: ".data ++ inp.contact_email ++
        "\n".data ++ "Phone: ".data ++ inp.contact_phone ∧
    (assembleDocument raw inp).marginLeft = 20 ∧
    (assembleDocument raw inp).marginRight = 20 ∧
    (assembleDocument raw inp).marginTop = 15 := by
  have hb : invalidInputs inp = false := by
    rcases hbool : invalidInputs inp with _ | _
    · rfl
    · rcases (invalidInputs_iff inp).mp hbool with hh | hh | hh | hh
      · exact absurd hh h1
      · exact absurd hh h2
      · exact absurd hh h3
      · omega
  refine ⟨by simp [handle, hb], rfl, ?_, ?_, rfl, rfl, rfl⟩
  · rw [show (assembleDocument raw inp).title = "Business Proposal".data
      from rfl]
    decide
  · simp [assembleDocument]

/-- C5 witness: a concrete successful run produces the rendered
document with the fixed title, exact footer and fixed margins. -/
theorem handler_success_document_witness :
    (handle ⟨"Acme".data, "SEO".data, 500, "Ana".data, "a@b.c".data,
        "555".data⟩ true (.ok "hi".data)).pdfWritten = true ∧
    (assembleDocument "hi".data ⟨"Acme".data, "SEO".data, 500,
        "Ana".data, "a@b.c".data, "555".data⟩).title =
      "Business Proposal".data := by
  have h := handler_success_document
    ⟨"Acme".data, "SEO".data, 500, "Ana".data, "a@b.c".data, "555".data⟩
    "hi".data (by decide) (by decide) (by decide) (by decide)
  exact ⟨by rw [h.1], h.2.1⟩

/-- C10: sender email and phone are not validated — with the three
required fields filled and a positive budget but empty email and phone,
the handler still calls generation and renders the document, whose
footer carries the `Email:` and `Phone:` labels with empty values. -/
theorem handler_empty_contact_fields (inp : Inputs) (raw : List Char)
    (h1 : inp.client_name ≠ []) (h2 : inp.service ≠ [])
    (h3 : inp.contact_name ≠ []) (h4 : 0 < inp.budget)
    (he : inp.contact_email = []) (hp : inp.contact_phone = []) :
    handle inp true (.ok raw) =
      { genCalled := true, pdfWritten := true
        promptSent := some (buildPrompt inp)
        outcome := .rendered (assembleDocument raw inp) } ∧
    (assembleDocument raw inp).footer =
      "---\nPrepared by: ".data ++ inp.contact_name ++
        "\nEmail: \nPhone: ".data := by
  have hb : invalidInputs inp = false := by
    rcases hbool : invalidInputs inp with _ | _
    · rfl
    · rcases (invalidInputs_iff inp).mp hbool with hh | hh | hh | hh
      · exact absurd hh h1
      · exact absurd hh h2
      · exact absurd hh h3
      · omega
  refine ⟨by simp [handle, hb], ?_⟩
  simp [assembleDocument, he, hp]

/-- C10 witness: a concrete request with empty email and phone is
still rendered, with empty-valued footer labels. -/
theorem handler_empty_contact_fields_witness :
    (handle ⟨"Acme".data, "SEO".data, 500, "Ana".data, [], []⟩ true
        (.ok "hi".data)).genCalled = true ∧
    (assembleDocument "hi".data
        ⟨"Acme".data, "SEO".data, 500, "Ana".data, [], []⟩).footer =
      "---\nPrepared by: Ana\nEmail: \nPhone: ".data := by
  have h := handler_empty_contact_fields
    ⟨"Acme".data, "SEO".data, 500, "Ana".data, [], []⟩ "hi".data
    (by decide) (by decide) (by decide) (by decide) rfl rfl
  refine ⟨by rw [h.1], ?_⟩
  rw [h.2]
  decide

/-- C3 counterexample: the claim says the missing font is detected
before the generation call so that the call is never invoked; but on a
concrete otherwise-valid request with the font absent, the handler has
already performed the generation call. -/
theorem font_check_not_eager :
    (handle ⟨"Acme".data, "SEO".data, 500, "Ana".data, "a@b.c".data,
        "555".data⟩ false (.ok "hi".data)).genCalled = true := by
  decide

/-- C3 amended: with an otherwise valid request and the font file
absent, the handler detects the absence only after the external
generation call (the call is wasted), and produces a fatal,
user-visible, non-crashing stop before any rendering: no PDF is
written. -/
theorem font_missing_stops_after_generation (inp : Inputs)
    (raw : List Char)
    (h1 : inp.client_name ≠ []) (h2 : inp.service ≠ [])
    (h3 : inp.contact_name ≠ []) (h4 : 0 < inp.budget) :
    handle inp false (.ok raw) =
      { genCalled := true, pdfWritten := false
        promptSent := some (buildPrompt inp)
        outcome := .fontMissingStop } := by
  have hb : invalidInputs inp = false := by
    rcases hbool : invalidInputs inp with _ | _
    · rfl
    · rcases (invalidInputs_iff inp).mp hbool with hh | hh | hh | hh
      · exact absurd hh h1
      · exact absurd hh h2
      · exact absurd hh h3
      · omega
  simp [handle, hb]

/-- C3 amended witness: a concrete valid request with the font absent
stops with the font error after a wasted generation call. -/
theorem font_missing_stops_after_generation_witness :
    handle ⟨"Acme".data, "SEO".data, 500, "Ana".data, "a@b.c".data,
        "555".data⟩ false (.ok "hi".data) =
      { genCalled := true, pdfWritten := false
        promptSent := some (buildPrompt ⟨"Acme".data, "SEO".data, 500,
          "Ana".data, "a@b.c".data, "555".data⟩)
        outcome := .fontMissingStop } := by
  exact font_missing_stops_after_generation _ _ (by decide) (by decide)
    (by decide) (by decide)

/-- C6: the normalizer is deterministic — equal raw inputs give equal
normalized outputs — and the assembled document is fully determined by
the normalized text together with the sender name, email, and phone:
two requests agreeing on those four values yield identical documents,
whatever their client name, service, or budget. -/
theorem normalization_deterministic_document_determined
    (raw raw' : List Char) (inp inp' : Inputs) :
    (raw = raw' → clean_proposal_text raw = clean_proposal_text raw') ∧
    (clean_proposal_text raw = clean_proposal_text raw' →
      inp.contact_name = inp'.contact_name →
      inp.contact_email = inp'.contact_email →
      inp.contact_phone = inp'.contact_phone →
      assembleDocument raw inp = assembleDocument raw' inp') := by
  refine ⟨fun h => by rw [h], fun hclean hn he hp => ?_⟩
  simp [assembleDocument, hclean, hn, he, hp]

/-- C6 witness: two raw texts that differ only in markup normalize to
the same text, and two requests differing in client, service, and
budget but agreeing on the sender fields produce the same document. -/
theorem normalization_determined_witness :
    assembleDocument "**hi**".data
        ⟨"Acme".data, "SEO".data, 500, "Ana".data, "a@b.c".data,
          "555".data⟩ =
      assembleDocument "hi".data
        ⟨"Burg".data, "Web".data, 9, "Ana".data, "a@b.c".data,
          "555".data⟩ := by
  exact (normalization_deterministic_document_determined _ _ _ _).2
    (by decide) rfl rfl rfl

/-- C9 counterexample: the claim — every bracketed span with a newline
in its interior is left, delimiters included, in the output — fails as
stated: the interior may contain emphasis markers, which the star step
removes first.  On the concrete input `[*\n]`, the output is `[\n]`,
which does not contain the span `[*\n]`. -/
theorem newline_span_not_always_kept :
    clean_proposal_text "[*\n]".data = "[\n]".data ∧
    ¬ containsSpan "[*\n]".data (clean_proposal_text "[*\n]".data) := by
  refine ⟨by decide, ?_⟩
  rintro ⟨a, b, h⟩
  have hstar : '*' ∈ clean_proposal_text "[*\n]".data := by
    rw [h]
    refine List.mem_append.mpr (Or.inl (List.mem_append.mpr (Or.inr ?_)))
    decide
  rw [show clean_proposal_text "[*\n]".data = "[\n]".data from by decide]
    at hstar
  exact absurd hstar (by decide)

/-- C9 amended: the placeholder step only matches spans on a single
line.  For every input containing a bracketed span whose interior
includes a newline — and contains none of the characters the
normalizer acts on itself: no `*` (removed by the star step) and no
`[` or `]` (which would let a one-line match cut into the span) — the
whole span, delimiters included, survives `clean_proposal_text`
verbatim. -/
theorem clean_preserves_multiline_span (p s m : List Char)
    (hnl : '\n' ∈ m) (hcl : ']' ∉ m) (hop : '[' ∉ m) (hst : '*' ∉ m) :
    containsSpan ('[' :: (m ++ [']']))
      (clean_proposal_text (p ++ ('[' :: (m ++ [']'])) ++ s)) := by
  have hspan : subStars ('[' :: (m ++ [']'])) = '[' :: (m ++ [']']) := by
    apply subStars_eq_self_of_noStar
    intro hmem
    rcases List.mem_cons.mp hmem with h | h
    · exact absurd h (by decide)
    · rcases List.mem_append.mp h with h | h
      · exact hst h
      · simp at h
  show containsSpan _
    (pyStrip (removeBrackets (subStars (p ++ ('[' :: (m ++ [']'])) ++ s))))
  rw [List.append_assoc, subStars_append, subStars_append, hspan]
  exact pyStrip_preserves_span (by decide) (by decide)
    (removeBrackets_preserves_span hnl hcl hop (subStars p).length
      (subStars p) (Nat.le_refl _) (subStars s))

/-- C9 amended witness: the span `[Your\nName]` survives normalization
inside a concrete surrounding text. -/
theorem clean_preserves_multiline_span_witness :
    containsSpan ('[' :: ("Your\nName".data ++ [']']))
      (clean_proposal_text ("see ".data ++
        ('[' :: ("Your\nName".data ++ [']'])) ++ " now".data)) := by
  exact clean_preserves_multiline_span "see ".data " now".data
    "Your\nName".data (by decide) (by decide) (by decide) (by decide)

end ProposalApp
